import Mathlib

/-!
Verification development for the synacksync repository.

The definitions below are a shallow embedding of the reconciliation code in
src/synacksync/synacksync.py (compare_and_update, add_event, edit_event,
fetch_tasks, fetch_targets, fetch_patch_verifications, main),
src/synacksync/database.py (save_*_to_db, get_upcoming_entries) and
src/gcaltool/gcaltool/calendar_service.py (get_upcoming_events, delete_event).

Modelling conventions:
  * Timestamps are Int epoch values; Python datetime arithmetic is not needed
    by any claim beyond equality and order comparison.
  * Python dicts are association lists with Python's insertion semantics:
    inserting an existing key replaces the value in place (keeping the key's
    original position); inserting a new key appends.  Iteration order is the
    list order, exactly as in CPython.
  * The Google-calendar collaborators are represented by the calls the engine
    makes to them (the SyncOp trace) plus an oracle giving each fallible
    projection call's outcome: `some id` is a successful call returning the
    event id, `none` is a raised HttpError.  In synacksync.py a raised
    HttpError propagates out of compare_and_update: add_event (lines 189-210)
    has no handler, and edit_event's handler (line 248) names
    googleapiclient, which synacksync.py never imports, so evaluating the
    except clause raises NameError.  Either way the loop aborts; the model
    records the failed call and stops (the Bool component becomes false).
  * delete_event (calendar_service.py lines 186-199) catches every exception
    and compare_and_update ignores its return value, so a projection-delete
    outcome cannot influence the engine; processDeletes still consumes the
    oracle at each delete to make that independence a theorem.
-/

/-- Python dict insertion: replacing an existing key keeps its position,
a new key is appended at the end. -/
def dictInsert (k : String) (v : β) : List (String × β) → List (String × β)
  | [] => [(k, v)]
  | (k', v') :: rest => if k' = k then (k', v) :: rest else (k', v') :: dictInsert k v rest

/-- Build a Python dict from a list, keying each element by `key`;
models comprehensions such as `{entry[key]: entry for entry in entries}`
(synacksync.py lines 401-402): a later element with the same key replaces
the earlier value. -/
def dictOf (key : β → String) (l : List β) : List (String × β) :=
  l.foldl (fun d x => dictInsert (key x) x d) []

/-- Dict lookup (`d[k]` / `k in d`): the first pair with the key wins;
dictInsert keeps keys unique, so this is the Python dict lookup. -/
def dictLookup : List (String × β) → String → Option β
  | [], _ => none
  | (k', v') :: rest, k => if k' = k then some v' else dictLookup rest k

/-- Dict key removal (`DELETE ... WHERE id = ?` on a keyed table). -/
def dictRemove (k : String) : List (String × β) → List (String × β)
  | [] => []
  | (k', v') :: rest => if k' = k then rest else (k', v') :: dictRemove k rest

/-- One calendar event as read back from the projection window:
compare_and_update only reads `event["summary"]` and
`event["start"]["dateTime"]` (synacksync.py lines 433-435). -/
structure GEvent where
  summary : String
  start : Int
deriving DecidableEq, Repr

/-- The rendered candidate event computed at synacksync.py lines 405-429:
summary, start, end and description for one record. -/
structure Rendered where
  summary : String
  start : Int
  stop : Int
  description : String
deriving DecidableEq, Repr

/-- One call issued by compare_and_update to a collaborator:
projCreate/projUpdate/projDelete are add_event/edit_event/delete_event calls,
storeUpsert/storeDelete are save_*_to_db calls (delete=False/True). -/
inductive SyncOp (α : Type) where
  | projCreate (e : Rendered)
  | projUpdate (eventId : String) (e : Rendered)
  | projDelete (eventId : String)
  | storeUpsert (rec : α)
  | storeDelete (id : String)
deriving DecidableEq, Repr

/-- The kind-specific part of compare_and_update: the record key, its
event_id field, and the rendering branch selected by `entry_type`
(synacksync.py lines 405-429).  The two laws record that event_id is a
field disjoint from the key. -/
class SyncEntry (α : Type) where
  key : α → String
  eventId : α → Option String
  setEventId : α → Option String → α
  render : Int → α → Rendered
  key_set : ∀ a x, key (setEventId a x) = key a
  eventId_set : ∀ a x, eventId (setEventId a x) = x

/-- Python truthiness of the `event_id` value read from a record dict:
`None` and the empty string are falsy (`if "event_id" in db_entry and
db_entry["event_id"]`, synacksync.py lines 448 and 493; the key is always
present in both parsed and selected records). -/
def truthy : Option String → Bool
  | none => false
  | some s => !(s == "")

/-- get_upcoming_events (calendar_service.py lines 202-230): the listed
window events are returned as a dict KEYED BY SUMMARY
(`{event['summary']: event for event in items}`, line 225), so a later
event with the same summary replaces an earlier one. -/
def eventsBySummary (window : List GEvent) : List (String × GEvent) :=
  dictOf GEvent.summary window

/-- The dedup check at synacksync.py lines 431-437: scan the values of the
summary-keyed window dict for an event whose summary and parsed start both
match the rendered candidate. -/
def eventExists (upcoming : List (String × GEvent)) (s : String) (t : Int) : Bool :=
  upcoming.any (fun p => p.2.summary == s && p.2.start == t)

/-- The fetched-record loop of compare_and_update (synacksync.py lines
404-489), iterating over `api_dict.items()`.  `n` counts the fallible
projection calls made so far; `oracle n = some ret` means the call
succeeds returning event id `ret`, `oracle n = none` means it raises, the
failure propagates, and processing stops. -/
def processFetched [DecidableEq α] [SyncEntry α] (dbDict : List (String × α))
    (upcoming : List (String × GEvent)) (oracle : Nat → Option String) (now : Int) :
    List (String × α) → Nat → List (SyncOp α) × Bool × Nat
  | [], n => ([], true, n)
  | (apiId, apiEntry) :: rest, n =>
    let r := SyncEntry.render now apiEntry
    if eventExists upcoming r.summary r.start then
      processFetched dbDict upcoming oracle now rest n
    else
      match dictLookup dbDict apiId with
      | some dbEntry =>
        if dbEntry = apiEntry then
          processFetched dbDict upcoming oracle now rest n
        else if truthy (SyncEntry.eventId dbEntry) then
          match oracle n with
          | some ret =>
            let out := processFetched dbDict upcoming oracle now rest (n + 1)
            (SyncOp.projUpdate ((SyncEntry.eventId dbEntry).getD "") r ::
              SyncOp.storeUpsert (SyncEntry.setEventId apiEntry (some ret)) :: out.1, out.2)
          | none => ([SyncOp.projUpdate ((SyncEntry.eventId dbEntry).getD "") r], false, n + 1)
        else
          match oracle n with
          | some ret =>
            let out := processFetched dbDict upcoming oracle now rest (n + 1)
            (SyncOp.projCreate r ::
              SyncOp.storeUpsert (SyncEntry.setEventId apiEntry (some ret)) :: out.1, out.2)
          | none => ([SyncOp.projCreate r], false, n + 1)
      | none =>
        match oracle n with
        | some ret =>
          let out := processFetched dbDict upcoming oracle now rest (n + 1)
          (SyncOp.projCreate r ::
            SyncOp.storeUpsert (SyncEntry.setEventId apiEntry (some ret)) :: out.1, out.2)
        | none => ([SyncOp.projCreate r], false, n + 1)

/-- The disappearance loop of compare_and_update (synacksync.py lines
491-500): for each cached id absent from the fetch, call delete_event when
the stored event_id is truthy, then delete the cache row unconditionally.
The oracle value consumed at a projection delete is ignored because
delete_event swallows every exception and its return value is unused. -/
def processDeletes [DecidableEq α] [SyncEntry α] (apiDict : List (String × α))
    (oracle : Nat → Option String) :
    List (String × α) → Nat → List (SyncOp α)
  | [], _ => []
  | (dbId, dbEntry) :: rest, n =>
    if (dictLookup apiDict dbId).isSome then
      processDeletes apiDict oracle rest n
    else if truthy (SyncEntry.eventId dbEntry) then
      SyncOp.projDelete ((SyncEntry.eventId dbEntry).getD "") ::
        SyncOp.storeDelete dbId :: processDeletes apiDict oracle rest (n + 1)
    else
      SyncOp.storeDelete dbId :: processDeletes apiDict oracle rest n

/-- compare_and_update (synacksync.py lines 395-500): index the window by
summary, index cached and fetched records by id, run the fetched-record
loop, and (when it did not abort) the disappearance loop.  The result is
the ordered trace of collaborator calls plus `true` when the function
returned normally, `false` when an unhandled projection error aborted it. -/
def compare_and_update [DecidableEq α] [SyncEntry α] (db_entries api_entries : List α)
    (window : List GEvent) (oracle : Nat → Option String) (now : Int) :
    List (SyncOp α) × Bool :=
  let upcoming := eventsBySummary window
  let dbDict := dictOf SyncEntry.key db_entries
  let apiDict := dictOf SyncEntry.key api_entries
  let out := processFetched dbDict upcoming oracle now apiDict 0
  if out.2.1 then
    (out.1 ++ processDeletes apiDict oracle dbDict out.2.2, true)
  else
    (out.1, false)

/-- Effect of a trace of store calls on the cache table (INSERT OR REPLACE
keyed by id, DELETE by id; database.py lines 88-148). -/
def applyOps [SyncEntry α] (cache : List (String × α)) : List (SyncOp α) → List (String × α)
  | [] => cache
  | SyncOp.storeUpsert r :: rest => applyOps (dictInsert (SyncEntry.key r) r cache) rest
  | SyncOp.storeDelete i :: rest => applyOps (dictRemove i cache) rest
  | _ :: rest => applyOps cache rest

/-- A task record: the fields produced by parse_tasks_response
(synacksync.py lines 276-308), which are also exactly the columns selected
from the tasks table by get_upcoming_entries (database.py line 162). -/
structure TaskRec where
  id : String
  title : String
  description : String
  listing_codename : String
  time_given : Int
  claimed_on : Int
  max_completion_time : Int
  payout_amount : Int
  payout_currency : String
  event_id : Option String
deriving DecidableEq, Repr

/-- A target record: fields of parse_targets_response (synacksync.py lines
252-273); get_upcoming_entries aliases the stored columns back to these
names (database.py line 165). -/
structure TargetRec where
  id : String
  category : String
  codename : String
  averagePayout : Int
  isActive : Bool
  start : Int
  discovery : Bool
  vuln_accepted : Int
  dynamic_payment_percentage : String
  event_id : Option String
deriving DecidableEq, Repr

/-- A patch-verification record: fields of parse_patch_verifications_response
(synacksync.py lines 311-328) and of the patch_verifications table columns
(database.py line 168). -/
structure PatchRec where
  id : String
  message : String
  expires : Int
  vuln_id : String
  vuln_title : String
  event_id : Option String
deriving DecidableEq, Repr

/-- Python str() of a bool, used inside the target description f-string. -/
def pyBool (b : Bool) : String :=
  if b then "True" else "False"

/-- Task rendering (synacksync.py lines 405-415): summary is
payout - title - listing_codename, start is claimed_on, end is
max_completion_time, description is the task description.  The `now`
defaults of the .get calls are dead for tasks because parse_tasks_response
always sets claimed_on and max_completion_time. -/
def renderTask (_now : Int) (r : TaskRec) : Rendered :=
  { summary := toString r.payout_amount ++ " - " ++ r.title ++ " - " ++ r.listing_codename
    start := r.claimed_on
    stop := r.max_completion_time
    description := r.description }

/-- Target rendering (synacksync.py lines 416-422): summary is the
codename, the event starts and ends at the target start, description is
the formatted category/discovery/vuln/payment string. -/
def renderTarget (_now : Int) (r : TargetRec) : Rendered :=
  { summary := r.codename
    start := r.start
    stop := r.start
    description := "Category: " ++ r.category ++ ", Discovery: " ++ pyBool r.discovery ++
      ", Vuln Accepted: " ++ toString r.vuln_accepted ++
      ", Dynamic Payment Percentage: " ++ r.dynamic_payment_percentage }

/-- Patch-verification rendering (synacksync.py lines 423-429): summary is
"Patch Verification for " plus the vulnerability title; patch records have
no "start" key, so `api_entry.get("start", datetime.now(utc))` always
yields the current time; end is the expiry. -/
def renderPatch (now : Int) (r : PatchRec) : Rendered :=
  { summary := "Patch Verification for " ++ r.vuln_title
    start := now
    stop := r.expires
    description := r.message }

instance : SyncEntry TaskRec where
  key := TaskRec.id
  eventId := TaskRec.event_id
  setEventId := fun a x => { a with event_id := x }
  render := renderTask
  key_set := fun _ _ => rfl
  eventId_set := fun _ _ => rfl

instance : SyncEntry TargetRec where
  key := TargetRec.id
  eventId := TargetRec.event_id
  setEventId := fun a x => { a with event_id := x }
  render := renderTarget
  key_set := fun _ _ => rfl
  eventId_set := fun _ _ => rfl

instance : SyncEntry PatchRec where
  key := PatchRec.id
  eventId := PatchRec.event_id
  setEventId := fun a x => { a with event_id := x }
  render := renderPatch
  key_set := fun _ _ => rfl
  eventId_set := fun _ _ => rfl

/-- An upstream API response: the HTTP status code and the records the
kind's parse_*_response function yields from its body when the code
is 200. -/
structure ApiResponse (α : Type) where
  code : Nat
  payload : List α

/-- fetch_tasks (synacksync.py lines 347-363): a 200 response is parsed,
any other status (401 included) only prints a message and returns the
empty list. -/
def fetch_tasks (r : ApiResponse TaskRec) : List TaskRec :=
  if r.code == 200 then r.payload else []

/-- fetch_patch_verifications (synacksync.py lines 331-344): a 200
response is parsed, any other status (401 included) only prints a message
and returns the empty list. -/
def fetch_patch_verifications (r : ApiResponse PatchRec) : List PatchRec :=
  if r.code == 200 then r.payload else []

/-- fetch_targets (synacksync.py lines 366-392): a 200 response is parsed;
a 401 prints "Unauthorized access" and calls exit(1); any other status
also calls exit(1).  `none` models the process exit. -/
def fetch_targets (r : ApiResponse TargetRec) : Option (List TargetRec) :=
  if r.code == 200 then some r.payload else none

/-- The collaborator calls made by one main() invocation, split per kind,
plus whether the run reached its normal end (`completed = false` when
fetch_targets exited the process or a compare_and_update call aborted on
an unhandled projection error). -/
structure MainTrace where
  taskOps : List (SyncOp TaskRec)
  targetOps : List (SyncOp TargetRec)
  patchOps : List (SyncOp PatchRec)
  completed : Bool
deriving DecidableEq, Repr

/-- main (synacksync.py lines 503-532): load cached entries, fetch patch
verifications, tasks, then targets (fetch_targets exits the process on any
non-200 before any compare_and_update runs), then reconcile tasks,
targets and patch verifications in that order; an exception escaping one
compare_and_update call prevents the later ones. -/
def mainRun (dbT : List TaskRec) (dbG : List TargetRec) (dbP : List PatchRec)
    (rP : ApiResponse PatchRec) (rT : ApiResponse TaskRec) (rG : ApiResponse TargetRec)
    (wT wG wP : List GEvent) (oT oG oP : Nat → Option String) (now : Int) : MainTrace :=
  let apiP := fetch_patch_verifications rP
  let apiT := fetch_tasks rT
  match fetch_targets rG with
  | none => ⟨[], [], [], false⟩
  | some apiG =>
    let t := compare_and_update dbT apiT wT oT now
    if t.2 then
      let g := compare_and_update dbG apiG wG oG now
      if g.2 then
        let p := compare_and_update dbP apiP wP oP now
        ⟨t.1, g.1, p.1, p.2⟩
      else ⟨t.1, g.1, [], false⟩
    else ⟨t.1, [], [], false⟩

/-- An SQLite value by storage class, as the operands of the WHERE
comparisons in get_upcoming_entries occur: the bound parameter
`datetime.now().timestamp()` is a REAL; the timestamp columns hold TEXT
(see storedTimestamp). -/
inductive SqlValue where
  | real (x : Int)
  | text (s : String)
deriving DecidableEq, Repr

/-- SQLite's `>` comparison across storage classes (sqlite.org
datatype3.html, "Comparison Expressions"): every TEXT value sorts above
every INTEGER/REAL value; same-class values compare within the class.
The timestamp columns are declared TIMESTAMP, which gives them NUMERIC
affinity; applying NUMERIC affinity to the REAL parameter changes
nothing, so a TEXT-stored column value really is compared against a
REAL. -/
def sqlGt : SqlValue → SqlValue → Bool
  | SqlValue.real a, SqlValue.real b => decide (b < a)
  | SqlValue.text _, SqlValue.real _ => true
  | SqlValue.real _, SqlValue.text _ => false
  | SqlValue.text a, SqlValue.text b => decide (b < a)

/-- The stored form of a timestamp column value: save_*_to_db
(database.py lines 88-148) bind Python datetime objects, which sqlite3's
default adapter writes as ISO-8601 strings; the TIMESTAMP column's
NUMERIC affinity cannot convert such a string to a number, so the stored
value keeps TEXT storage class.  Only the storage class matters to the
WHERE comparisons below, so the exact rendering of the Int time point is
immaterial. -/
def storedTimestamp (t : Int) : SqlValue :=
  SqlValue.text (toString t)

/-- get_upcoming_entries (database.py lines 156-172): each query selects
the rows whose timestamp column compares greater than the parameter
`datetime.now().timestamp()` under SQLite's comparison rules.  Because
the column values are TEXT and the parameter is REAL, `sqlGt` is true
for every row, whatever its timestamp: the filters are vacuous. -/
def get_upcoming_entries (tasks : List TaskRec) (targets : List TargetRec)
    (patches : List PatchRec) (now : Int) :
    List TaskRec × List TargetRec × List PatchRec :=
  (tasks.filter (fun t => sqlGt (storedTimestamp t.max_completion_time) (SqlValue.real now)),
   targets.filter (fun g => sqlGt (storedTimestamp g.start) (SqlValue.real now)),
   patches.filter (fun p => sqlGt (storedTimestamp p.expires) (SqlValue.real now)))

/-! ### Association-list lemmas for the Python-dict model -/

/-- Looking up in a dict after an insert: the inserted key returns the new
value, any other key is unaffected. -/
theorem dictLookup_dictInsert (k : String) (v : β) (d : List (String × β)) (i : String) :
    dictLookup (dictInsert k v d) i = if k = i then some v else dictLookup d i := by
  induction d with
  | nil => simp [dictInsert, dictLookup]
  | cons p rest ih =>
    obtain ⟨k', v'⟩ := p
    by_cases hk : k' = k
    · subst hk
      by_cases hi : k' = i <;> simp [dictInsert, dictLookup, hi]
    · by_cases hi : k' = i
      · subst hi
        have : ¬ k = k' := fun h => hk h.symm
        simp [dictInsert, dictLookup, hk, this]
      · simp [dictInsert, dictLookup, hk, hi, ih]

/-- dictOf keyed lookup over a fold, generalized over the accumulator. -/
theorem dictLookup_foldl_dictInsert (key : β → String) (l : List β)
    (d₀ : List (String × β)) (i : String) :
    dictLookup (l.foldl (fun d x => dictInsert (key x) x d) d₀) i =
      (l.reverse.find? (fun x => decide (key x = i))).orElse (fun _ => dictLookup d₀ i) := by
  induction l generalizing d₀ with
  | nil => simp
  | cons x xs ih =>
    rw [List.foldl_cons, ih, List.reverse_cons, List.find?_append]
    cases hfind : xs.reverse.find? (fun x => decide (key x = i)) with
    | some r => simp [hfind, Option.orElse]
    | none =>
      by_cases hx : key x = i <;>
        simp [hfind, Option.orElse, List.find?, hx, dictLookup_dictInsert]

/-- Indexing a list by key keeps, for each key, exactly the element that
occurs LAST in the list (`{entry[key]: entry for entry in entries}`:
a later duplicate replaces the earlier value). -/
theorem dictLookup_dictOf (key : β → String) (l : List β) (i : String) :
    dictLookup (dictOf key l) i = l.reverse.find? (fun x => decide (key x = i)) := by
  rw [dictOf, dictLookup_foldl_dictInsert]
  cases h : l.reverse.find? (fun x => decide (key x = i)) <;> simp [h, Option.orElse, dictLookup]

/-- Any pair of dictInsert's result is the inserted pair or an original one. -/
theorem mem_dictInsert (k : String) (v : β) (d : List (String × β)) (p : String × β)
    (h : p ∈ dictInsert k v d) : p = (k, v) ∨ p ∈ d := by
  induction d with
  | nil => simpa [dictInsert] using h
  | cons q rest ih =>
    obtain ⟨k', v'⟩ := q
    by_cases hk : k' = k
    · subst hk
      rcases (by simpa [dictInsert] using h : p = (k', v) ∨ p ∈ rest) with h1 | h1
      · exact Or.inl (by simp [h1])
      · exact Or.inr (List.mem_cons_of_mem _ h1)
    · rcases (by simpa [dictInsert, hk] using h : p = (k', v') ∨ p ∈ dictInsert k v rest) with h1 | h1
      · exact Or.inr (by simp [h1])
      · rcases ih h1 with h2 | h2
        · exact Or.inl h2
        · exact Or.inr (List.mem_cons_of_mem _ h2)

/-- Every value stored by dictOf is an element of the original list. -/
theorem mem_dictOf_val (key : β → String) (l : List β) (p : String × β)
    (h : p ∈ dictOf key l) : p.2 ∈ l := by
  suffices H : ∀ (l : List β) (d₀ : List (String × β)),
      p ∈ l.foldl (fun d x => dictInsert (key x) x d) d₀ → p.2 ∈ l ∨ p ∈ d₀ by
    rcases H l [] h with h1 | h1
    · exact h1
    · simp at h1
  intro l
  induction l with
  | nil => intro d₀ h; exact Or.inr (by simpa using h)
  | cons x xs ih =>
    intro d₀ h
    rcases ih (dictInsert (key x) x d₀) (by simpa using h) with h1 | h1
    · exact Or.inl (List.mem_cons_of_mem _ h1)
    · rcases mem_dictInsert _ _ _ _ h1 with h2 | h2
      · exact Or.inl (by simp [h2])
      · exact Or.inr h2

/-- Every pair of dictOf is keyed consistently: the stored key is the key
of the stored value. -/
theorem dictOf_key_consistent (key : β → String) (l : List β) (p : String × β)
    (h : p ∈ dictOf key l) : key p.2 = p.1 := by
  suffices H : ∀ (l : List β) (d₀ : List (String × β)),
      (∀ q ∈ d₀, key q.2 = q.1) → p ∈ l.foldl (fun d x => dictInsert (key x) x d) d₀ →
        key p.2 = p.1 by
    exact H l [] (by simp) h
  intro l
  induction l with
  | nil => intro d₀ hd h; exact hd p (by simpa using h)
  | cons x xs ih =>
    intro d₀ hd h
    refine ih (dictInsert (key x) x d₀) ?_ (by simpa using h)
    intro q hq
    rcases mem_dictInsert _ _ _ _ hq with h1 | h1
    · simp [h1]
    · exact hd q h1

/-- A key present as a pair is found by lookup (possibly with another
value if keys repeat, which dictOf never produces). -/
theorem dictLookup_isSome_of_mem (d : List (String × β)) (k : String) (v : β)
    (h : (k, v) ∈ d) : (dictLookup d k).isSome := by
  induction d with
  | nil => simp at h
  | cons p rest ih =>
    obtain ⟨k', v'⟩ := p
    by_cases hk : k' = k
    · simp [dictLookup, hk]
    · rcases List.mem_cons.mp h with h1 | h1
      · simp only [Prod.mk.injEq] at h1
        exact absurd h1.1.symm hk
      · simpa [dictLookup, hk] using ih h1

/-- A successful lookup exhibits a member pair. -/
theorem mem_of_dictLookup_some (d : List (String × β)) (k : String) (v : β)
    (h : dictLookup d k = some v) : (k, v) ∈ d := by
  induction d with
  | nil => simp [dictLookup] at h
  | cons p rest ih =>
    obtain ⟨k', v'⟩ := p
    by_cases hk : k' = k
    · subst hk
      simp [dictLookup] at h
      simp [h]
    · simp [dictLookup, hk] at h
      exact List.mem_cons_of_mem _ (ih h)

/-- Removal never affects the lookup of a different key. -/
theorem dictLookup_dictRemove_ne (k i : String) (d : List (String × β)) (h : i ≠ k) :
    dictLookup (dictRemove k d) i = dictLookup d i := by
  induction d with
  | nil => simp [dictRemove]
  | cons p rest ih =>
    obtain ⟨k', v'⟩ := p
    by_cases hk : k' = k
    · subst hk
      have hne : ¬ k' = i := fun hh => h hh.symm
      simp [dictRemove, dictLookup, hne]
    · by_cases hi : k' = i
      · subst hi
        simp [dictRemove, dictLookup, hk]
      · simp [dictRemove, dictLookup, hk, hi, ih]

/-- Removal cannot create a binding: a key found after dictRemove was
already found before. -/
theorem dictLookup_ne_none_of_dictRemove (k i : String) (d : List (String × β))
    (h : dictLookup (dictRemove k d) i ≠ none) : dictLookup d i ≠ none := by
  induction d with
  | nil => simpa [dictRemove] using h
  | cons p rest ih =>
    obtain ⟨k', v'⟩ := p
    by_cases hk : k' = k
    · subst hk
      by_cases hi : k' = i <;> simp_all [dictRemove, dictLookup]
    · by_cases hi : k' = i <;> simp_all [dictRemove, dictLookup]

/-- Unfound keys look up to none. -/
theorem dictLookup_eq_none_of_not_mem (d : List (String × β)) (k : String)
    (h : k ∉ d.map Prod.fst) : dictLookup d k = none := by
  induction d with
  | nil => rfl
  | cons p rest ih =>
    obtain ⟨k', v'⟩ := p
    simp only [List.map_cons, List.mem_cons] at h
    push_neg at h
    have hne : ¬ k' = k := fun hh => h.1 hh.symm
    simp [dictLookup, hne, ih h.2]

/-- Keys occurring after an insert: the inserted key or an original key. -/
theorem mem_keys_dictInsert (k j : String) (v : β) (d : List (String × β))
    (h : j ∈ (dictInsert k v d).map Prod.fst) : j = k ∨ j ∈ d.map Prod.fst := by
  induction d with
  | nil => simpa [dictInsert] using h
  | cons p rest ih =>
    obtain ⟨k', v'⟩ := p
    by_cases hk : k' = k
    · subst hk
      simpa [dictInsert] using h
    · rcases (by simpa [dictInsert, hk] using h :
          j = k' ∨ j ∈ (dictInsert k v rest).map Prod.fst) with h1 | h1
      · simp [h1]
      · rcases ih h1 with h2 | h2
        · exact Or.inl h2
        · simp [h2]

/-- dictInsert keeps keys unique. -/
theorem dictInsert_keys_nodup (k : String) (v : β) (d : List (String × β))
    (h : (d.map Prod.fst).Nodup) : ((dictInsert k v d).map Prod.fst).Nodup := by
  induction d with
  | nil => simp [dictInsert]
  | cons p rest ih =>
    obtain ⟨k', v'⟩ := p
    simp only [List.map_cons, List.nodup_cons] at h
    by_cases hk : k' = k
    · subst hk
      simpa [dictInsert, List.nodup_cons] using h
    · have heq : dictInsert k v ((k', v') :: rest) = (k', v') :: dictInsert k v rest := by
        simp [dictInsert, hk]
      rw [heq, List.map_cons, List.nodup_cons]
      refine ⟨fun hmem => ?_, ih h.2⟩
      rcases mem_keys_dictInsert _ _ _ _ hmem with h1 | h1
      · exact hk h1
      · exact h.1 h1

/-- dictRemove's keys form a sublist of the original keys. -/
theorem dictRemove_keys_sublist (k : String) (d : List (String × β)) :
    ((dictRemove k d).map Prod.fst).Sublist (d.map Prod.fst) := by
  induction d with
  | nil => simp [dictRemove]
  | cons p rest ih =>
    obtain ⟨k', v'⟩ := p
    by_cases hk : k' = k
    · simpa [dictRemove, hk] using (List.sublist_cons_self k' (rest.map Prod.fst))
    · simpa [dictRemove, hk] using ih.cons₂ k'

/-- dictRemove keeps keys unique. -/
theorem dictRemove_keys_nodup (k : String) (d : List (String × β))
    (h : (d.map Prod.fst).Nodup) : ((dictRemove k d).map Prod.fst).Nodup :=
  (dictRemove_keys_sublist k d).nodup h

/-- When keys are unique, removing a key really erases its binding. -/
theorem dictLookup_dictRemove_self (k : String) (d : List (String × β))
    (h : (d.map Prod.fst).Nodup) : dictLookup (dictRemove k d) k = none := by
  induction d with
  | nil => simp [dictRemove, dictLookup]
  | cons p rest ih =>
    obtain ⟨k', v'⟩ := p
    simp only [List.map_cons, List.nodup_cons] at h
    by_cases hk : k' = k
    · subst hk
      exact (by simpa [dictRemove] using dictLookup_eq_none_of_not_mem rest k' h.1)
    · simp [dictRemove, dictLookup, hk, ih h.2]

/-- dictOf builds a dict with unique keys. -/
theorem dictOf_keys_nodup (key : β → String) (l : List β) :
    ((dictOf key l).map Prod.fst).Nodup := by
  suffices H : ∀ (l : List β) (d₀ : List (String × β)), (d₀.map Prod.fst).Nodup →
      ((l.foldl (fun d x => dictInsert (key x) x d) d₀).map Prod.fst).Nodup by
    exact H l [] (by simp)
  intro l
  induction l with
  | nil => intro d₀ h; simpa using h
  | cons x xs ih =>
    intro d₀ h
    exact ih (dictInsert (key x) x d₀) (dictInsert_keys_nodup _ _ _ h)

/-! ### Structural lemmas about the reconciliation traces -/

/-- applyOps distributes over trace concatenation. -/
theorem applyOps_append [SyncEntry α] (d : List (String × α)) (l₁ l₂ : List (SyncOp α)) :
    applyOps d (l₁ ++ l₂) = applyOps (applyOps d l₁) l₂ := by
  induction l₁ generalizing d with
  | nil => rfl
  | cons op rest ih => cases op <;> simp [applyOps, ih]

/-- applyOps keeps keys unique. -/
theorem applyOps_keys_nodup [SyncEntry α] (d : List (String × α)) (ops : List (SyncOp α))
    (h : (d.map Prod.fst).Nodup) : ((applyOps d ops).map Prod.fst).Nodup := by
  induction ops generalizing d with
  | nil => exact h
  | cons op rest ih =>
    cases op with
    | storeUpsert r => exact ih _ (dictInsert_keys_nodup _ _ _ h)
    | storeDelete i => exact ih _ (dictRemove_keys_nodup _ _ h)
    | projCreate e => exact ih _ h
    | projUpdate eid e => exact ih _ h
    | projDelete eid => exact ih _ h

/-- applyOps keeps the key-consistency of the cache pairs. -/
theorem applyOps_key_consistent [SyncEntry α] (d : List (String × α)) (ops : List (SyncOp α))
    (h : ∀ p ∈ d, SyncEntry.key p.2 = p.1) :
    ∀ p ∈ applyOps d ops, SyncEntry.key p.2 = p.1 := by
  induction ops generalizing d with
  | nil => exact h
  | cons op rest ih =>
    cases op with
    | storeUpsert r =>
      refine ih _ (fun p hp => ?_)
      rcases mem_dictInsert _ _ _ _ hp with h1 | h1
      · simp [h1]
      · exact h p h1
    | storeDelete i =>
      refine ih _ (fun p hp => ?_)
      have hmem : p ∈ d := by
        clear ih h
        induction d with
        | nil => simpa [dictRemove] using hp
        | cons q ds ihd =>
          obtain ⟨k', v'⟩ := q
          by_cases hk : k' = i
          · exact List.mem_cons_of_mem _ (by simpa [dictRemove, hk] using hp)
          · rcases (by simpa [dictRemove, hk] using hp : p = (k', v') ∨ p ∈ dictRemove i ds)
              with h1 | h1
            · simp [h1]
            · exact List.mem_cons_of_mem _ (ihd h1)
      exact h p hmem
    | projCreate e => exact ih _ h
    | projUpdate eid e => exact ih _ h
    | projDelete eid => exact ih _ h

/-- A key found after applying a trace was in the cache before, unless
some upsert in the trace wrote it. -/
theorem applyOps_lookup_escape [SyncEntry α] (d : List (String × α)) (ops : List (SyncOp α))
    (i : String) (h : dictLookup (applyOps d ops) i ≠ none) :
    dictLookup d i ≠ none ∨ ∃ r, SyncOp.storeUpsert r ∈ ops ∧ SyncEntry.key r = i := by
  induction ops generalizing d with
  | nil => exact Or.inl h
  | cons op rest ih =>
    cases op with
    | storeUpsert r =>
      rcases ih _ h with h1 | h1
      · rw [dictLookup_dictInsert] at h1
        by_cases hk : SyncEntry.key r = i
        · exact Or.inr ⟨r, by simp, hk⟩
        · exact Or.inl (by simpa [hk] using h1)
      · obtain ⟨r', hr', hk'⟩ := h1
        exact Or.inr ⟨r', List.mem_cons_of_mem _ hr', hk'⟩
    | storeDelete j =>
      rcases ih _ h with h1 | h1
      · exact Or.inl (dictLookup_ne_none_of_dictRemove j i d h1)
      · obtain ⟨r', hr', hk'⟩ := h1
        exact Or.inr ⟨r', List.mem_cons_of_mem _ hr', hk'⟩
    | projCreate e =>
      rcases ih _ h with h1 | h1
      · exact Or.inl h1
      · obtain ⟨r', hr', hk'⟩ := h1
        exact Or.inr ⟨r', List.mem_cons_of_mem _ hr', hk'⟩
    | projUpdate eid e =>
      rcases ih _ h with h1 | h1
      · exact Or.inl h1
      · obtain ⟨r', hr', hk'⟩ := h1
        exact Or.inr ⟨r', List.mem_cons_of_mem _ hr', hk'⟩
    | projDelete eid =>
      rcases ih _ h with h1 | h1
      · exact Or.inl h1
      · obtain ⟨r', hr', hk'⟩ := h1
        exact Or.inr ⟨r', List.mem_cons_of_mem _ hr', hk'⟩

/-- An upsert-free trace cannot resurrect a missing key. -/
theorem applyOps_no_upsert_none [SyncEntry α] (d : List (String × α)) (ops : List (SyncOp α))
    (i : String) (hops : ∀ r, SyncOp.storeUpsert r ∉ ops)
    (h : dictLookup d i = none) : dictLookup (applyOps d ops) i = none := by
  by_contra hne
  rcases applyOps_lookup_escape d ops i hne with h1 | h1
  · exact h1 h
  · obtain ⟨r, hr, _⟩ := h1
    exact hops r hr

/-- A store delete in an upsert-free trace erases the key for good. -/
theorem applyOps_delete_kills [SyncEntry α] (d : List (String × α)) (ops : List (SyncOp α))
    (i : String) (hnd : (d.map Prod.fst).Nodup)
    (hops : ∀ r, SyncOp.storeUpsert r ∉ ops)
    (hdel : SyncOp.storeDelete i ∈ ops) : dictLookup (applyOps d ops) i = none := by
  induction ops generalizing d with
  | nil => simp at hdel
  | cons op rest ih =>
    have hops' : ∀ r, SyncOp.storeUpsert r ∉ rest :=
      fun r hr => hops r (List.mem_cons_of_mem _ hr)
    cases op with
    | storeUpsert r => exact absurd (by simp) (hops r)
    | storeDelete j =>
      simp only [applyOps]
      rcases List.mem_cons.mp hdel with h1 | h1
      · have hj : j = i := by simpa using h1.symm
        subst hj
        exact applyOps_no_upsert_none _ _ _ hops' (dictLookup_dictRemove_self j d hnd)
      · exact ih _ (dictRemove_keys_nodup _ _ hnd) hops' h1
    | projCreate e =>
      simp only [applyOps]
      exact ih _ hnd hops' (by simpa using hdel)
    | projUpdate eid e =>
      simp only [applyOps]
      exact ih _ hnd hops' (by simpa using hdel)
    | projDelete eid =>
      simp only [applyOps]
      exact ih _ hnd hops' (by simpa using hdel)

/-- A fetched record whose rendered summary and start match a retained
window event is skipped whole: no call, no store write, the oracle not
even consulted (synacksync.py lines 431-443). -/
theorem processFetched_skip_of_eventExists [DecidableEq α] [SyncEntry α]
    (d : List (String × α)) (u : List (String × GEvent)) (o : Nat → Option String)
    (now : Int) (i : String) (a : α) (rest : List (String × α)) (n : Nat)
    (hex : eventExists u (SyncEntry.render now a).summary (SyncEntry.render now a).start = true) :
    processFetched d u o now ((i, a) :: rest) n = processFetched d u o now rest n := by
  simp [processFetched, hex]

/-- A fetched record that equals the cached record under the same id is
skipped whole (the `db_entry != api_entry` test at synacksync.py line 447
fails), whether or not the dedup guard also matched. -/
theorem processFetched_skip_of_equal [DecidableEq α] [SyncEntry α]
    (d : List (String × α)) (u : List (String × GEvent)) (o : Nat → Option String)
    (now : Int) (i : String) (a : α) (rest : List (String × α)) (n : Nat)
    (hdb : dictLookup d i = some a) :
    processFetched d u o now ((i, a) :: rest) n = processFetched d u o now rest n := by
  by_cases hex : eventExists u (SyncEntry.render now a).summary (SyncEntry.render now a).start
  · simp [processFetched, hex]
  · simp [processFetched, hex, hdb]

/-- A fetched record with no dedup match and no cached row yields exactly
one create and, on success, exactly one upsert carrying the returned
event id (synacksync.py lines 474-489). -/
theorem processFetched_create_step [DecidableEq α] [SyncEntry α]
    (d : List (String × α)) (u : List (String × GEvent)) (o : Nat → Option String)
    (now : Int) (i : String) (a : α) (rest : List (String × α)) (n : Nat) (ret : String)
    (hex : eventExists u (SyncEntry.render now a).summary (SyncEntry.render now a).start = false)
    (hdb : dictLookup d i = none) (ho : o n = some ret) :
    processFetched d u o now ((i, a) :: rest) n =
      (SyncOp.projCreate (SyncEntry.render now a) ::
        SyncOp.storeUpsert (SyncEntry.setEventId a (some ret)) ::
        (processFetched d u o now rest (n + 1)).1,
       (processFetched d u o now rest (n + 1)).2) := by
  simp [processFetched, hex, hdb, ho]

/-- One step of the disappearance loop for a cached id absent from the
fetch (synacksync.py lines 491-500). -/
theorem processDeletes_step [DecidableEq α] [SyncEntry α]
    (apiD : List (String × α)) (o : Nat → Option String) (i : String) (r : α)
    (rest : List (String × α)) (n : Nat) (hapi : dictLookup apiD i = none) :
    processDeletes apiD o ((i, r) :: rest) n =
      if truthy (SyncEntry.eventId r) then
        SyncOp.projDelete ((SyncEntry.eventId r).getD "") ::
          SyncOp.storeDelete i :: processDeletes apiD o rest (n + 1)
      else
        SyncOp.storeDelete i :: processDeletes apiD o rest n := by
  by_cases ht : truthy (SyncEntry.eventId r) <;> simp [processDeletes, hapi, ht]

/-- When every fetched record has a dedup match, the fetched-record loop
emits nothing, succeeds and consumes no oracle entry. -/
theorem processFetched_all_skip [DecidableEq α] [SyncEntry α]
    (d : List (String × α)) (u : List (String × GEvent)) (o : Nat → Option String)
    (now : Int) (l : List (String × α)) (n : Nat)
    (h : ∀ p ∈ l, eventExists u (SyncEntry.render now p.2).summary
      (SyncEntry.render now p.2).start = true) :
    processFetched d u o now l n = ([], true, n) := by
  induction l generalizing n with
  | nil => simp [processFetched]
  | cons q rest ih =>
    obtain ⟨i, a⟩ := q
    have ha := h (i, a) (by simp)
    rw [processFetched_skip_of_eventExists d u o now i a rest n ha]
    exact ih n (fun p hp => h p (List.mem_cons_of_mem _ hp))

/-- When every cached id is still fetched, the disappearance loop emits
nothing. -/
theorem processDeletes_all_present [DecidableEq α] [SyncEntry α]
    (apiD : List (String × α)) (o : Nat → Option String) (l : List (String × α)) (n : Nat)
    (h : ∀ p ∈ l, (dictLookup apiD p.1).isSome) :
    processDeletes apiD o l n = [] := by
  induction l generalizing n with
  | nil => simp [processDeletes]
  | cons q rest ih =>
    obtain ⟨i, r⟩ := q
    have hi := h (i, r) (by simp)
    simp only [processDeletes, hi, if_true]
    exact ih n (fun p hp => h p (List.mem_cons_of_mem _ hp))

/-- Every call emitted by the fetched-record loop is a projection create,
a projection update, or a store upsert whose record key is the key of one
of the processed fetched records: the loop never deletes anything. -/
theorem processFetched_shape [DecidableEq α] [SyncEntry α]
    (d : List (String × α)) (u : List (String × GEvent)) (o : Nat → Option String)
    (now : Int) (l : List (String × α)) (n : Nat) :
    ∀ op ∈ (processFetched d u o now l n).1,
      (∃ e, op = SyncOp.projCreate e) ∨ (∃ eid e, op = SyncOp.projUpdate eid e) ∨
      (∃ r, op = SyncOp.storeUpsert r ∧ ∃ p ∈ l, SyncEntry.key r = SyncEntry.key p.2) := by
  induction l generalizing n with
  | nil => intro op hop; simp [processFetched] at hop
  | cons q rest ih =>
    obtain ⟨apiId, apiEntry⟩ := q
    intro op hop
    have weaken :
        (∃ e, op = SyncOp.projCreate e) ∨ (∃ eid e, op = SyncOp.projUpdate eid e) ∨
          (∃ r, op = SyncOp.storeUpsert r ∧ ∃ p ∈ rest, SyncEntry.key r = SyncEntry.key p.2) →
        (∃ e, op = SyncOp.projCreate e) ∨ (∃ eid e, op = SyncOp.projUpdate eid e) ∨
          (∃ r, op = SyncOp.storeUpsert r ∧
            ∃ p ∈ (apiId, apiEntry) :: rest, SyncEntry.key r = SyncEntry.key p.2) := by
      rintro (h1 | h1 | ⟨r, hr, p, hp, hk⟩)
      · exact Or.inl h1
      · exact Or.inr (Or.inl h1)
      · exact Or.inr (Or.inr ⟨r, hr, p, List.mem_cons_of_mem _ hp, hk⟩)
    simp only [processFetched] at hop
    split at hop
    · exact weaken (ih n op hop)
    · split at hop
      · rename_i dbEntry _
        split at hop
        · exact weaken (ih n op hop)
        · split at hop
          · split at hop
            · rename_i ret _
              rcases List.mem_cons.mp hop with h1 | h1
              · exact Or.inr (Or.inl ⟨_, _, h1⟩)
              · rcases List.mem_cons.mp h1 with h2 | h2
                · refine Or.inr (Or.inr ⟨_, h2, (apiId, apiEntry), by simp, ?_⟩)
                  exact SyncEntry.key_set apiEntry (some ret)
                · exact weaken (ih (n + 1) op h2)
            · rcases (by simpa using hop : op = SyncOp.projUpdate _ _) with h1
              exact Or.inr (Or.inl ⟨_, _, h1⟩)
          · split at hop
            · rename_i ret _
              rcases List.mem_cons.mp hop with h1 | h1
              · exact Or.inl ⟨_, h1⟩
              · rcases List.mem_cons.mp h1 with h2 | h2
                · refine Or.inr (Or.inr ⟨_, h2, (apiId, apiEntry), by simp, ?_⟩)
                  exact SyncEntry.key_set apiEntry (some ret)
                · exact weaken (ih (n + 1) op h2)
            · rcases (by simpa using hop : op = SyncOp.projCreate _) with h1
              exact Or.inl ⟨_, h1⟩
      · split at hop
        · rename_i ret _
          rcases List.mem_cons.mp hop with h1 | h1
          · exact Or.inl ⟨_, h1⟩
          · rcases List.mem_cons.mp h1 with h2 | h2
            · refine Or.inr (Or.inr ⟨_, h2, (apiId, apiEntry), by simp, ?_⟩)
              exact SyncEntry.key_set apiEntry (some ret)
            · exact weaken (ih (n + 1) op h2)
        · rcases (by simpa using hop : op = SyncOp.projCreate _) with h1
          exact Or.inl ⟨_, h1⟩

/-- Every call emitted by the disappearance loop concerns some processed
cached pair whose id the fetch no longer contains: a store delete of its
id, or (when its stored event id is truthy) a projection delete of that
event id.  The loop emits no upsert and no create/update. -/
theorem processDeletes_shape [DecidableEq α] [SyncEntry α]
    (apiD : List (String × α)) (o : Nat → Option String) (l : List (String × α)) (n : Nat) :
    ∀ op ∈ processDeletes apiD o l n,
      ∃ p ∈ l, dictLookup apiD p.1 = none ∧
        (op = SyncOp.storeDelete p.1 ∨
         (truthy (SyncEntry.eventId p.2) = true ∧
          op = SyncOp.projDelete ((SyncEntry.eventId p.2).getD ""))) := by
  induction l generalizing n with
  | nil => intro op hop; simp [processDeletes] at hop
  | cons q rest ih =>
    obtain ⟨i, r⟩ := q
    intro op hop
    have weaken : (∃ p ∈ rest, dictLookup apiD p.1 = none ∧
        (op = SyncOp.storeDelete p.1 ∨
         (truthy (SyncEntry.eventId p.2) = true ∧
          op = SyncOp.projDelete ((SyncEntry.eventId p.2).getD "")))) →
        ∃ p ∈ (i, r) :: rest, dictLookup apiD p.1 = none ∧
        (op = SyncOp.storeDelete p.1 ∨
         (truthy (SyncEntry.eventId p.2) = true ∧
          op = SyncOp.projDelete ((SyncEntry.eventId p.2).getD ""))) := by
      rintro ⟨p, hp, h1, h2⟩
      exact ⟨p, List.mem_cons_of_mem _ hp, h1, h2⟩
    simp only [processDeletes] at hop
    split at hop
    · exact weaken (ih n op hop)
    · rename_i hsome
      have hnone : dictLookup apiD i = none := by
        cases h : dictLookup apiD i with
        | none => rfl
        | some v => rw [h] at hsome; simp at hsome
      split at hop
      · rename_i ht
        rcases List.mem_cons.mp hop with h1 | h1
        · exact ⟨(i, r), by simp, hnone, Or.inr ⟨ht, h1⟩⟩
        · rcases List.mem_cons.mp h1 with h2 | h2
          · exact ⟨(i, r), by simp, hnone, Or.inl h2⟩
          · exact weaken (ih (n + 1) op h2)
      · rcases List.mem_cons.mp hop with h1 | h1
        · exact ⟨(i, r), by simp, hnone, Or.inl h1⟩
        · exact weaken (ih n op h1)

/-- The disappearance loop emits no store upsert. -/
theorem processDeletes_no_upsert [DecidableEq α] [SyncEntry α]
    (apiD : List (String × α)) (o : Nat → Option String) (l : List (String × α)) (n : Nat) :
    ∀ r, SyncOp.storeUpsert r ∉ processDeletes apiD o l n := by
  intro r hr
  rcases processDeletes_shape apiD o l n _ hr with ⟨p, _, _, h1 | h1⟩
  · simp at h1
  · simp at h1

/-- Every processed cached pair whose id the fetch no longer contains gets
its cache row deleted. -/
theorem storeDelete_mem_processDeletes [DecidableEq α] [SyncEntry α]
    (apiD : List (String × α)) (o : Nat → Option String) (l : List (String × α)) (n : Nat)
    (i : String) (r : α) (hmem : (i, r) ∈ l) (hapi : dictLookup apiD i = none) :
    SyncOp.storeDelete i ∈ processDeletes apiD o l n := by
  induction l generalizing n with
  | nil => simp at hmem
  | cons q rest ih =>
    obtain ⟨j, s⟩ := q
    rcases List.mem_cons.mp hmem with h1 | h1
    · obtain ⟨hji, hsr⟩ := Prod.mk.injEq .. ▸ (by simpa using h1.symm : (j, s) = (i, r))
      subst hji
      have : ¬ (dictLookup apiD j).isSome := by simp [hapi]
      by_cases ht : truthy (SyncEntry.eventId s) <;>
        simp [processDeletes, this, ht]
    · by_cases hj : (dictLookup apiD j).isSome
      · simp only [processDeletes, hj, if_true]
        exact ih n h1
      · by_cases ht : truthy (SyncEntry.eventId s) <;>
          · simp only [processDeletes, hj, if_false, ht, if_true, List.mem_cons]
            right
            first
              | exact List.mem_cons_of_mem _ (ih (n + 1) h1)
              | exact ih (n + 1) h1
              | exact ih n h1

/-- If no listed window event matches a (summary, start) pair, the dedup
check over the summary-keyed mapping cannot match either (the mapping's
values all come from the listed window). -/
theorem eventExists_eventsBySummary_false (w : List GEvent) (s : String) (t : Int)
    (h : ∀ e ∈ w, ¬ (e.summary = s ∧ e.start = t)) :
    eventExists (eventsBySummary w) s t = false := by
  simp only [eventExists, List.any_eq_false]
  intro p hp hcontra
  exact h p.2 (mem_dictOf_val _ _ _ hp) (by simpa using hcontra)

/-- After a compare_and_update run that completed, every id still present
in the cache is an id of the fetched index: upserts only write fetched
ids, and the disappearance loop removed every other cached id. -/
theorem run_result_keys_fetched [DecidableEq α] [SyncEntry α]
    (cached fetched : List α) (w : List GEvent) (o : Nat → Option String) (now : Int)
    (hok : (compare_and_update cached fetched w o now).2 = true) (i : String)
    (hi : dictLookup (applyOps (dictOf SyncEntry.key cached)
        (compare_and_update cached fetched w o now).1) i ≠ none) :
    dictLookup (dictOf SyncEntry.key fetched) i ≠ none := by
  simp only [compare_and_update] at hok hi
  cases hpf : (processFetched (dictOf SyncEntry.key cached) (eventsBySummary w) o now
      (dictOf SyncEntry.key fetched) 0).2.1 with
  | false => rw [hpf] at hok; simp at hok
  | true =>
    rw [hpf] at hi
    simp only [if_true] at hi
    set dbD := dictOf SyncEntry.key cached with hdbD
    set apiD := dictOf SyncEntry.key fetched with hapiD
    set pf := processFetched dbD (eventsBySummary w) o now apiD 0 with hpfdef
    set pd := processDeletes apiD o dbD pf.2.2 with hpddef
    rw [applyOps_append] at hi
    set M := applyOps dbD pf.1 with hM
    intro happi
    have hMi : dictLookup M i ≠ none := by
      rcases applyOps_lookup_escape M pd i hi with h1 | h1
      · exact h1
      · obtain ⟨r, hr, _⟩ := h1
        exact absurd hr (processDeletes_no_upsert apiD o dbD pf.2.2 r)
    have hdbDi : dictLookup dbD i ≠ none := by
      rcases applyOps_lookup_escape dbD pf.1 i hMi with h1 | h1
      · exact h1
      · obtain ⟨r, hr, hk⟩ := h1
        rcases processFetched_shape dbD (eventsBySummary w) o now apiD 0 _ hr with
          h2 | h2 | ⟨r', hr', p, hp, hk'⟩
        · obtain ⟨e, he⟩ := h2; simp at he
        · obtain ⟨eid, e, he⟩ := h2; simp at he
        · have hrr : r' = r := by
            have := (by simpa using hr' : r = r')
            exact this.symm
          have hkey : SyncEntry.key p.2 = p.1 := dictOf_key_consistent _ _ _ hp
          have hiIsP : p.1 = i := by rw [← hkey, ← hk', hrr, hk]
          have : (dictLookup apiD p.1).isSome :=
            dictLookup_isSome_of_mem apiD p.1 p.2 (by simpa using hp)
          rw [hiIsP, happi] at this
          simp at this
    obtain ⟨v, hv⟩ := Option.ne_none_iff_exists'.mp hdbDi
    have hmemdb : (i, v) ∈ dbD := mem_of_dictLookup_some _ _ _ hv
    have hdel : SyncOp.storeDelete i ∈ pd :=
      storeDelete_mem_processDeletes apiD o dbD pf.2.2 i v hmemdb happi
    have hkill : dictLookup (applyOps M pd) i = none :=
      applyOps_delete_kills M pd i
        (applyOps_keys_nodup dbD pf.1 (dictOf_keys_nodup _ _))
        (processDeletes_no_upsert apiD o dbD pf.2.2) hdel
    exact hi hkill

/-- A record's event_id is truthy exactly when it is non-null and
non-empty. -/
theorem truthy_iff (x : Option String) : truthy x = true ↔ ∃ s, x = some s ∧ s ≠ "" := by
  cases x <;> simp [truthy]

/-- Every call in a compare_and_update trace comes from the fetched-record
loop or from the disappearance loop. -/
theorem compare_trace_split [DecidableEq α] [SyncEntry α]
    (db api : List α) (w : List GEvent) (o : Nat → Option String) (now : Int) :
    ∀ op ∈ (compare_and_update db api w o now).1,
      op ∈ (processFetched (dictOf SyncEntry.key db) (eventsBySummary w) o now
        (dictOf SyncEntry.key api) 0).1 ∨
      op ∈ processDeletes (dictOf SyncEntry.key api) o (dictOf SyncEntry.key db)
        (processFetched (dictOf SyncEntry.key db) (eventsBySummary w) o now
          (dictOf SyncEntry.key api) 0).2.2 := by
  intro op hop
  simp only [compare_and_update] at hop
  split at hop
  · exact List.mem_append.mp hop
  · exact Or.inl hop

/-! ### Claim theorems -/

/-- C8: for every fetched list containing two or more records with the
same id, the indexing of the fetch by id (`{entry["id"]: entry ...}`,
synacksync.py line 402) retains exactly the record that occurs last in
fetch order, and compare_and_update's behaviour depends on the fetched
list only through that index, so only the last record is considered by
the rest of the reconciliation. -/
theorem c8_last_duplicate_wins :
    (∀ (β : Type) (key : β → String) (l : List β) (i : String),
      dictLookup (dictOf key l) i = l.reverse.find? (fun x => decide (key x = i))) ∧
    (∀ (db api api' : List TaskRec) (w : List GEvent) (o : Nat → Option String) (now : Int),
      dictOf SyncEntry.key api = dictOf SyncEntry.key api' →
      compare_and_update db api w o now = compare_and_update db api' w o now) := by
  constructor
  · intro β key l i
    exact dictLookup_dictOf key l i
  · intro db api api' w o now h
    simp only [compare_and_update, h]

/-- C8 witness: two task records share id "t1"; the index keeps the later
one, and reconciling against the duplicated list equals reconciling
against just the later record. -/
theorem c8_last_duplicate_wins_witness :
    (dictLookup (dictOf TaskRec.id
        [⟨"t1", "A", "da", "CA", 1, 10, 11, 5, "USD", none⟩,
         ⟨"t1", "B", "db", "CB", 2, 20, 22, 6, "USD", none⟩]) "t1" =
      [(⟨"t1", "A", "da", "CA", 1, 10, 11, 5, "USD", none⟩ : TaskRec),
       ⟨"t1", "B", "db", "CB", 2, 20, 22, 6, "USD", none⟩].reverse.find?
        (fun x => decide (TaskRec.id x = "t1"))) ∧
    compare_and_update ([] : List TaskRec)
        [⟨"t1", "A", "da", "CA", 1, 10, 11, 5, "USD", none⟩,
         ⟨"t1", "B", "db", "CB", 2, 20, 22, 6, "USD", none⟩]
        [] (fun _ => some "e8") 0 =
      compare_and_update ([] : List TaskRec)
        [⟨"t1", "B", "db", "CB", 2, 20, 22, 6, "USD", none⟩]
        [] (fun _ => some "e8") 0 :=
  ⟨c8_last_duplicate_wins.1 TaskRec TaskRec.id _ "t1",
   c8_last_duplicate_wins.2 [] _ _ [] (fun _ => some "e8") 0 (by decide)⟩

/-- C9: get_upcoming_events keys its result by event summary
(calendar_service.py line 225), so among listed window events sharing a
summary only the last listed one is retained; an earlier event whose
(summary, start) would match a fetched record is invisible to the dedup
check, and compare_and_update creates a duplicate event anyway, as the
concrete run in the second conjunct shows. -/
theorem c9_window_index_last_summary_wins :
    (∀ (events : List GEvent) (s : String),
      dictLookup (eventsBySummary events) s =
        events.reverse.find? (fun e => decide (e.summary = s))) ∧
    ((⟨"25 - Review - CO", 50⟩ : GEvent).summary =
        (renderTask 0 ⟨"t9", "Review", "d9", "CO", 60, 50, 110, 25, "USD", none⟩).summary ∧
     (⟨"25 - Review - CO", 50⟩ : GEvent).start =
        (renderTask 0 ⟨"t9", "Review", "d9", "CO", 60, 50, 110, 25, "USD", none⟩).start ∧
     (⟨"25 - Review - CO", 50⟩ : GEvent) ∈
        [(⟨"25 - Review - CO", 50⟩ : GEvent), ⟨"25 - Review - CO", 777⟩] ∧
     compare_and_update ([] : List TaskRec)
        [⟨"t9", "Review", "d9", "CO", 60, 50, 110, 25, "USD", none⟩]
        [⟨"25 - Review - CO", 50⟩, ⟨"25 - Review - CO", 777⟩]
        (fun _ => some "e9") 0 =
      ([SyncOp.projCreate (renderTask 0 ⟨"t9", "Review", "d9", "CO", 60, 50, 110, 25, "USD", none⟩),
        SyncOp.storeUpsert ⟨"t9", "Review", "d9", "CO", 60, 50, 110, 25, "USD", some "e9"⟩],
       true)) := by
  constructor
  · intro events s
    exact dictLookup_dictOf GEvent.summary events s
  · refine ⟨rfl, rfl, by simp, by decide⟩

/-- C1 counterexample: a cached task and a fetched task with the same id
that agree on every rendered field (identical rendering, title,
description, times) and differ only in event_id (cached non-null, fetched
null) are NOT treated as equal: `db_entry != api_entry` (synacksync.py
line 447) compares whole records, so compare_and_update issues a
projection update and a store write for the id, contradicting the
claim. -/
theorem c1_event_id_only_diff_triggers_update :
    (renderTask 0 ⟨"t1", "Fix XSS", "d1", "ACME", 3600, 100, 3700, 500, "USD", some "e1"⟩ =
      renderTask 0 ⟨"t1", "Fix XSS", "d1", "ACME", 3600, 100, 3700, 500, "USD", none⟩) ∧
    (⟨"t1", "Fix XSS", "d1", "ACME", 3600, 100, 3700, 500, "USD", some "e1"⟩ : TaskRec).event_id ≠
      (⟨"t1", "Fix XSS", "d1", "ACME", 3600, 100, 3700, 500, "USD", none⟩ : TaskRec).event_id ∧
    compare_and_update
        ([⟨"t1", "Fix XSS", "d1", "ACME", 3600, 100, 3700, 500, "USD", some "e1"⟩] : List TaskRec)
        ([⟨"t1", "Fix XSS", "d1", "ACME", 3600, 100, 3700, 500, "USD", none⟩] : List TaskRec)
        [] (fun _ => some "e1") 0 =
      ([SyncOp.projUpdate "e1"
          (renderTask 0 ⟨"t1", "Fix XSS", "d1", "ACME", 3600, 100, 3700, 500, "USD", none⟩),
        SyncOp.storeUpsert (⟨"t1", "Fix XSS", "d1", "ACME", 3600, 100, 3700, 500, "USD", some "e1"⟩ : TaskRec)],
       true) := by
  refine ⟨rfl, by decide, by decide⟩

/-- C1 amended: the equality guard of step 3d is full-record equality,
so only a fetched record EQUAL IN ALL FIELDS (event_id included) to the
cached record under its id is skipped with no projection call, no store
write and no oracle consumption. -/
theorem c1_full_equality_skips {α : Type} [DecidableEq α] [SyncEntry α]
    (d : List (String × α)) (u : List (String × GEvent)) (o : Nat → Option String)
    (now : Int) (i : String) (a : α) (rest : List (String × α)) (n : Nat)
    (hdb : dictLookup d i = some a) :
    processFetched d u o now ((i, a) :: rest) n = processFetched d u o now rest n :=
  processFetched_skip_of_equal d u o now i a rest n hdb

/-- C1 witness: a concrete cached/fetched pair equal in all fields is
processed without any emitted call. -/
theorem c1_full_equality_skips_witness :
    dictLookup [("t1", (⟨"t1", "Fix XSS", "d1", "ACME", 3600, 100, 3700, 500, "USD", some "e1"⟩ : TaskRec))] "t1" =
      some ⟨"t1", "Fix XSS", "d1", "ACME", 3600, 100, 3700, 500, "USD", some "e1"⟩ ∧
    processFetched
        [("t1", (⟨"t1", "Fix XSS", "d1", "ACME", 3600, 100, 3700, 500, "USD", some "e1"⟩ : TaskRec))]
        [] (fun _ => none) 0
        [("t1", ⟨"t1", "Fix XSS", "d1", "ACME", 3600, 100, 3700, 500, "USD", some "e1"⟩)] 0 =
      processFetched
        [("t1", (⟨"t1", "Fix XSS", "d1", "ACME", 3600, 100, 3700, 500, "USD", some "e1"⟩ : TaskRec))]
        [] (fun _ => none) 0 [] 0 :=
  ⟨by decide,
   c1_full_equality_skips _ _ _ _ _ _ _ _ (by decide)⟩

/-- C4 counterexample: the window lists two events with the same summary;
the first one matches the fetched record's rendered (summary, start), but
get_upcoming_events keys the window by summary so only the last event is
retained, the dedup check misses, and compare_and_update issues a
projection create and a store write for the record — contradicting the
claim that a matching window event always suppresses calls. -/
theorem c4_shadowed_window_event_not_deduped :
    ((⟨"75 - Scan - CX", 40⟩ : GEvent).summary =
      (renderTask 0 ⟨"t4", "Scan", "d4", "CX", 10, 40, 50, 75, "USD", none⟩).summary) ∧
    ((⟨"75 - Scan - CX", 40⟩ : GEvent).start =
      (renderTask 0 ⟨"t4", "Scan", "d4", "CX", 10, 40, 50, 75, "USD", none⟩).start) ∧
    ((⟨"75 - Scan - CX", 40⟩ : GEvent) ∈
      [(⟨"75 - Scan - CX", 40⟩ : GEvent), ⟨"75 - Scan - CX", 900⟩]) ∧
    dictLookup (dictOf SyncEntry.key ([] : List TaskRec)) "t4" = none ∧
    compare_and_update ([] : List TaskRec)
        [⟨"t4", "Scan", "d4", "CX", 10, 40, 50, 75, "USD", none⟩]
        [⟨"75 - Scan - CX", 40⟩, ⟨"75 - Scan - CX", 900⟩]
        (fun _ => some "e4") 0 =
      ([SyncOp.projCreate (renderTask 0 ⟨"t4", "Scan", "d4", "CX", 10, 40, 50, 75, "USD", none⟩),
        SyncOp.storeUpsert ⟨"t4", "Scan", "d4", "CX", 10, 40, 50, 75, "USD", some "e4"⟩],
       true) := by
  refine ⟨rfl, rfl, by simp, rfl, by decide⟩

/-- C4 amended: when the fetched record's rendered (summary, start)
matches an event RETAINED in the summary-keyed window mapping (the last
listed event per summary), compare_and_update performs no projection call
and no store write for that record — even when its id is absent from the
cache (the hypothesis places no constraint on the cached dict). -/
theorem c4_dedup_match_skips_record {α : Type} [DecidableEq α] [SyncEntry α]
    (db : List α) (w : List GEvent) (o : Nat → Option String) (now : Int)
    (i : String) (a : α) (rest : List (String × α)) (n : Nat)
    (hex : eventExists (eventsBySummary w) (SyncEntry.render now a).summary
      (SyncEntry.render now a).start = true) :
    processFetched (dictOf SyncEntry.key db) (eventsBySummary w) o now ((i, a) :: rest) n =
      processFetched (dictOf SyncEntry.key db) (eventsBySummary w) o now rest n :=
  processFetched_skip_of_eventExists _ _ _ _ _ _ _ _ hex

/-- C4 witness: a fetched task with no cached row whose rendering matches
the retained window event is skipped without any call. -/
theorem c4_dedup_match_skips_record_witness :
    eventExists (eventsBySummary [⟨"75 - Scan - CX", 40⟩])
        (SyncEntry.render 0 (⟨"t4", "Scan", "d4", "CX", 10, 40, 50, 75, "USD", none⟩ : TaskRec)).summary
        (SyncEntry.render 0 (⟨"t4", "Scan", "d4", "CX", 10, 40, 50, 75, "USD", none⟩ : TaskRec)).start = true ∧
    processFetched (dictOf SyncEntry.key ([] : List TaskRec))
        (eventsBySummary [⟨"75 - Scan - CX", 40⟩]) (fun _ => none) 0
        [("t4", ⟨"t4", "Scan", "d4", "CX", 10, 40, 50, 75, "USD", none⟩)] 0 =
      processFetched (dictOf SyncEntry.key ([] : List TaskRec))
        (eventsBySummary [⟨"75 - Scan - CX", 40⟩]) (fun _ => none) 0 [] 0 :=
  ⟨by decide,
   c4_dedup_match_skips_record [] _ _ _ _ _ _ _ (by decide)⟩

/-- C6 counterexample: a cached task whose event_id is the empty string —
non-null — disappears from the fetch; `if "event_id" in db_entry and
db_entry["event_id"]` (synacksync.py line 493) is falsy for "", so NO
projection delete is issued even though event_id is non-null (refuting
the claimed "if and only if non-null"); the cache row is still
deleted. -/
theorem c6_empty_event_id_skips_delete :
    ((⟨"t6", "Old", "d6", "CZ", 10, 40, 50, 30, "USD", some ""⟩ : TaskRec).event_id ≠ none) ∧
    compare_and_update
        ([⟨"t6", "Old", "d6", "CZ", 10, 40, 50, 30, "USD", some ""⟩] : List TaskRec)
        ([] : List TaskRec) [] (fun _ => none) 0 =
      ([SyncOp.storeDelete "t6"], true) := by
  refine ⟨by decide, by decide⟩

/-- C6 amended: for a cached id absent from the fetch, a projection
delete is issued if and only if the cached event_id is non-null AND
non-empty (Python truthiness); the cache row is deleted unconditionally,
and since the oracle value consumed by a projection delete is ignored
(delete_event swallows every exception), this holds for every oracle —
in particular when the projection delete fails. -/
theorem c6_disappearance_delete_behavior {α : Type} [DecidableEq α] [SyncEntry α]
    (apiD : List (String × α)) (o : Nat → Option String) (i : String) (r : α)
    (rest : List (String × α)) (n : Nat) (hapi : dictLookup apiD i = none) :
    (∀ e, SyncEntry.eventId r = some e → e ≠ "" →
      processDeletes apiD o ((i, r) :: rest) n =
        SyncOp.projDelete e :: SyncOp.storeDelete i :: processDeletes apiD o rest (n + 1)) ∧
    ((SyncEntry.eventId r = none ∨ SyncEntry.eventId r = some "") →
      processDeletes apiD o ((i, r) :: rest) n =
        SyncOp.storeDelete i :: processDeletes apiD o rest n) := by
  constructor
  · intro e he hne
    have ht : truthy (SyncEntry.eventId r) = true := truthy_iff _ |>.mpr ⟨e, he, hne⟩
    rw [processDeletes_step apiD o i r rest n hapi, if_pos ht, he]
    simp
  · intro hcase
    have ht : truthy (SyncEntry.eventId r) = false := by
      rcases hcase with h | h <;> simp [h, truthy]
    rw [processDeletes_step apiD o i r rest n hapi, if_neg (by simp [ht])]

/-- C6 witness: a disappeared cached task with truthy event_id "eZ" gets
one projection delete and one cache delete even when the oracle reports
failure for every projection call. -/
theorem c6_disappearance_delete_behavior_witness :
    processDeletes ([] : List (String × TaskRec)) (fun _ => none)
        [("t6", ⟨"t6", "Old", "d6", "CZ", 10, 40, 50, 30, "USD", some "eZ"⟩)] 0 =
      SyncOp.projDelete "eZ" :: SyncOp.storeDelete "t6" ::
        processDeletes ([] : List (String × TaskRec)) (fun _ => none) [] 1 :=
  (c6_disappearance_delete_behavior [] (fun _ => none) "t6"
    (⟨"t6", "Old", "d6", "CZ", 10, 40, 50, 30, "USD", some "eZ"⟩ : TaskRec) [] 0 rfl).1
    "eZ" rfl (by decide)

/-- C7: a fetched record whose id has no cached row and whose rendered
(summary, start) matches no listed window event gets exactly one
projection create followed by exactly one store upsert whose event_id is
the non-null id returned by the create; the rest of the fetched records
are then processed (synacksync.py lines 474-489). -/
theorem c7_create_on_new {α : Type} [DecidableEq α] [SyncEntry α]
    (db : List α) (w : List GEvent) (o : Nat → Option String) (now : Int)
    (i : String) (a : α) (rest : List (String × α)) (n : Nat) (ret : String)
    (hw : ∀ e ∈ w, ¬ (e.summary = (SyncEntry.render now a).summary ∧
      e.start = (SyncEntry.render now a).start))
    (hdb : dictLookup (dictOf SyncEntry.key db) i = none)
    (ho : o n = some ret) :
    processFetched (dictOf SyncEntry.key db) (eventsBySummary w) o now ((i, a) :: rest) n =
      (SyncOp.projCreate (SyncEntry.render now a) ::
        SyncOp.storeUpsert (SyncEntry.setEventId a (some ret)) ::
        (processFetched (dictOf SyncEntry.key db) (eventsBySummary w) o now rest (n + 1)).1,
       (processFetched (dictOf SyncEntry.key db) (eventsBySummary w) o now rest (n + 1)).2) ∧
    SyncEntry.eventId (SyncEntry.setEventId a (some ret)) = some ret :=
  ⟨processFetched_create_step _ _ _ _ _ _ _ _ _
    (eventExists_eventsBySummary_false w _ _ hw) hdb ho,
   SyncEntry.eventId_set a (some ret)⟩

/-- C7 witness: a new fetched task against an empty cache and empty
window yields the create followed by the upsert carrying the returned
event id "e7". -/
theorem c7_create_on_new_witness :
    processFetched (dictOf SyncEntry.key ([] : List TaskRec)) (eventsBySummary [])
        (fun _ => some "e7") 0
        [("t7", ⟨"t7", "New", "d7", "CQ", 10, 40, 50, 20, "USD", none⟩)] 0 =
      (SyncOp.projCreate (SyncEntry.render 0 (⟨"t7", "New", "d7", "CQ", 10, 40, 50, 20, "USD", none⟩ : TaskRec)) ::
        SyncOp.storeUpsert (SyncEntry.setEventId
          (⟨"t7", "New", "d7", "CQ", 10, 40, 50, 20, "USD", none⟩ : TaskRec) (some "e7")) ::
        (processFetched (dictOf SyncEntry.key ([] : List TaskRec)) (eventsBySummary [])
          (fun _ => some "e7") 0 [] 1).1,
       (processFetched (dictOf SyncEntry.key ([] : List TaskRec)) (eventsBySummary [])
         (fun _ => some "e7") 0 [] 1).2) ∧
    SyncEntry.eventId (SyncEntry.setEventId
      (⟨"t7", "New", "d7", "CQ", 10, 40, 50, 20, "USD", none⟩ : TaskRec) (some "e7")) = some "e7" :=
  c7_create_on_new [] [] (fun _ => some "e7") 0 "t7"
    (⟨"t7", "New", "d7", "CQ", 10, 40, 50, 20, "USD", none⟩ : TaskRec) [] 0 "e7"
    (by simp) rfl rfl

/-- C3: a failing projection call aborts compare_and_update instead of
being recorded and skipped.  First conjunct: the first fetched task's
add_event fails (the oracle reports the raised HttpError); the trace
stops at that failed create, the sibling task "t32" is never processed,
and the run aborts (no handler around add_event).  Second conjunct: the
same for a failing edit_event on a changed cached task (its handler
references the never-imported name googleapiclient, so the exception
escapes); in both runs nothing is written to the store for the failing
id, but no sibling is processed either. -/
theorem c3_projection_failure_aborts_siblings :
    (compare_and_update ([] : List TaskRec)
        ([⟨"t31", "One", "da", "CA", 10, 40, 50, 11, "USD", none⟩,
          ⟨"t32", "Two", "db", "CB", 10, 41, 51, 12, "USD", none⟩] : List TaskRec)
        [] (fun _ => none) 0 =
      ([SyncOp.projCreate (renderTask 0 ⟨"t31", "One", "da", "CA", 10, 40, 50, 11, "USD", none⟩)],
       false)) ∧
    (compare_and_update
        ([⟨"t31", "One", "da", "CA", 10, 40, 50, 11, "USD", some "e3"⟩] : List TaskRec)
        ([⟨"t31", "One CHANGED", "da", "CA", 10, 40, 50, 11, "USD", none⟩,
          ⟨"t32", "Two", "db", "CB", 10, 41, 51, 12, "USD", none⟩] : List TaskRec)
        [] (fun _ => none) 0 =
      ([SyncOp.projUpdate "e3"
          (renderTask 0 ⟨"t31", "One CHANGED", "da", "CA", 10, 40, 50, 11, "USD", none⟩)],
       false)) := by
  refine ⟨by decide, by decide⟩

/-- C5 counterexample: the tasks fetch returns HTTP 401; fetch_tasks only
prints and returns the empty list (synacksync.py lines 361-363), so main
proceeds, and the task reconciliation — now seeing an empty fetched set —
deletes the cached task's calendar event and its cache row: calendar and
store mutations occur after an authorization failure, and the run even
completes normally. -/
theorem c5_task_fetch_401_still_mutates :
    (⟨401, []⟩ : ApiResponse TaskRec).code = 401 ∧
    mainRun ([⟨"t5", "Keep", "d5", "CK", 10, 40, 50, 35, "USD", some "e5"⟩] : List TaskRec)
        [] [] ⟨200, []⟩ ⟨401, []⟩ ⟨200, []⟩ [] [] []
        (fun _ => none) (fun _ => none) (fun _ => none) 0 =
      ⟨[SyncOp.projDelete "e5", SyncOp.storeDelete "t5"], [], [], true⟩ := by
  refine ⟨rfl, by decide⟩

/-- C5 amended: only the TARGETS fetch aborts the run on a non-200
response (fetch_targets calls exit(1), synacksync.py lines 387-392), and
since it runs before every compare_and_update call, a targets
authorization failure prevents every calendar and store mutation of that
run; a 401 on the tasks or patch-verifications fetch is instead treated
as an empty fetched list and the run proceeds (deleting cached
entries). -/
theorem c5_target_fetch_abort_prevents_mutations
    (dbT : List TaskRec) (dbG : List TargetRec) (dbP : List PatchRec)
    (rP : ApiResponse PatchRec) (rT : ApiResponse TaskRec) (rG : ApiResponse TargetRec)
    (wT wG wP : List GEvent) (oT oG oP : Nat → Option String) (now : Int)
    (hcode : rG.code ≠ 200) :
    mainRun dbT dbG dbP rP rT rG wT wG wP oT oG oP now = ⟨[], [], [], false⟩ := by
  have hb : (rG.code == 200) = false := by simpa using hcode
  simp [mainRun, fetch_targets, hb]

/-- C5 witness: a 401 on the targets fetch yields a run with no calendar
or store call at all, even with a cached task present. -/
theorem c5_target_fetch_abort_prevents_mutations_witness :
    mainRun ([⟨"t5", "Keep", "d5", "CK", 10, 40, 50, 35, "USD", some "e5"⟩] : List TaskRec)
        [] [] ⟨200, []⟩ ⟨200, []⟩ ⟨401, []⟩ [] [] []
        (fun _ => none) (fun _ => none) (fun _ => none) 0 =
      ⟨[], [], [], false⟩ :=
  c5_target_fetch_abort_prevents_mutations _ _ _ _ _ _ _ _ _ _ _ _ _ (by decide)

/-- C2 counterexample: one new task, empty cache, empty window.  The
first run creates the event and upserts the cache row with event_id "e2".
The second run — cached set exactly the first run's resulting cache rows,
fetched and window unchanged — is NOT a no-op: the cached row now carries
event_id "e2" while the freshly fetched record's event_id is null, the
whole-record inequality at synacksync.py line 447 fires, and the second
run issues a projection update and a store write. -/
theorem c2_second_run_with_unchanged_window_writes :
    (compare_and_update ([] : List TaskRec)
        [⟨"t2", "Audit", "d2", "CW", 100, 10, 110, 50, "USD", none⟩]
        [] (fun _ => some "e2") 0).2 = true ∧
    compare_and_update
        ((applyOps (dictOf SyncEntry.key ([] : List TaskRec))
          (compare_and_update ([] : List TaskRec)
            [⟨"t2", "Audit", "d2", "CW", 100, 10, 110, 50, "USD", none⟩]
            [] (fun _ => some "e2") 0).1).map Prod.snd)
        [⟨"t2", "Audit", "d2", "CW", 100, 10, 110, 50, "USD", none⟩]
        [] (fun _ => some "e2") 0 =
      ([SyncOp.projUpdate "e2"
          (renderTask 0 ⟨"t2", "Audit", "d2", "CW", 100, 10, 110, 50, "USD", none⟩),
        SyncOp.storeUpsert (⟨"t2", "Audit", "d2", "CW", 100, 10, 110, 50, "USD", some "e2"⟩ : TaskRec)],
       true) := by
  refine ⟨by decide, by decide⟩

/-- C2 amended: the second run is a no-op exactly when its projection
window reflects the events the first run created or updated: if the first
run completed and every fetched record's rendered (summary, start) is
matched by the second run's retained window mapping, then the second run
— its cached set being the cache rows resulting from the first run's
store calls — issues zero projection creates, updates, deletes and zero
store writes. -/
theorem c2_idempotent_when_window_reflects_creates {α : Type} [DecidableEq α] [SyncEntry α]
    (cached fetched : List α) (w1 w2 : List GEvent) (o1 o2 : Nat → Option String)
    (now1 now2 : Int)
    (hok : (compare_and_update cached fetched w1 o1 now1).2 = true)
    (hw : ∀ a ∈ fetched,
      eventExists (eventsBySummary w2) (SyncEntry.render now2 a).summary
        (SyncEntry.render now2 a).start = true) :
    compare_and_update
      ((applyOps (dictOf SyncEntry.key cached)
        (compare_and_update cached fetched w1 o1 now1).1).map Prod.snd)
      fetched w2 o2 now2 = ([], true) := by
  have hpf : processFetched
      (dictOf SyncEntry.key ((applyOps (dictOf SyncEntry.key cached)
        (compare_and_update cached fetched w1 o1 now1).1).map Prod.snd))
      (eventsBySummary w2) o2 now2 (dictOf SyncEntry.key fetched) 0 = ([], true, 0) :=
    processFetched_all_skip _ _ _ _ _ _
      (fun p hp => hw p.2 (mem_dictOf_val _ _ _ hp))
  have hpd : processDeletes (dictOf SyncEntry.key fetched) o2
      (dictOf SyncEntry.key ((applyOps (dictOf SyncEntry.key cached)
        (compare_and_update cached fetched w1 o1 now1).1).map Prod.snd)) 0 = [] := by
    apply processDeletes_all_present
    intro p hp
    have hval : p.2 ∈ (applyOps (dictOf SyncEntry.key cached)
        (compare_and_update cached fetched w1 o1 now1).1).map Prod.snd :=
      mem_dictOf_val _ _ _ hp
    have hkeyp : SyncEntry.key p.2 = p.1 := dictOf_key_consistent _ _ _ hp
    obtain ⟨q, hq, hq2⟩ := List.mem_map.mp hval
    have hqkey : SyncEntry.key q.2 = q.1 :=
      applyOps_key_consistent _ _ (fun p' hp' => dictOf_key_consistent _ _ _ hp') q hq
    have hmem' : (q.1, q.2) ∈ applyOps (dictOf SyncEntry.key cached)
        (compare_and_update cached fetched w1 o1 now1).1 := by simpa using hq
    have hlookup : dictLookup (applyOps (dictOf SyncEntry.key cached)
        (compare_and_update cached fetched w1 o1 now1).1) q.1 ≠ none :=
      Option.ne_none_iff_isSome.mpr (dictLookup_isSome_of_mem _ _ _ hmem')
    have h2 := run_result_keys_fetched cached fetched w1 o1 now1 hok q.1 hlookup
    have hpq : p.1 = q.1 := by rw [← hkeyp, ← hq2, hqkey]
    rw [hpq]
    exact Option.ne_none_iff_isSome.mp h2
  generalize hgen : (compare_and_update cached fetched w1 o1 now1).1 = ops1 at hpf hpd ⊢
  simp only [compare_and_update]
  rw [hpf]
  simpa using hpd

/-- C2 witness: the second run against a window containing the created
event's rendered (summary, start) is a strict no-op. -/
theorem c2_idempotent_when_window_reflects_creates_witness :
    (compare_and_update ([] : List TaskRec)
        [⟨"t2", "Audit", "d2", "CW", 100, 10, 110, 50, "USD", none⟩]
        [] (fun _ => some "e2") 0).2 = true ∧
    compare_and_update
        ((applyOps (dictOf SyncEntry.key ([] : List TaskRec))
          (compare_and_update ([] : List TaskRec)
            [⟨"t2", "Audit", "d2", "CW", 100, 10, 110, 50, "USD", none⟩]
            [] (fun _ => some "e2") 0).1).map Prod.snd)
        [⟨"t2", "Audit", "d2", "CW", 100, 10, 110, 50, "USD", none⟩]
        [⟨"50 - Audit - CW", 10⟩] (fun _ => some "x") 0 = ([], true) :=
  ⟨by decide,
   c2_idempotent_when_window_reflects_creates [] _ [] [⟨"50 - Audit - CW", 10⟩]
     (fun _ => some "e2") (fun _ => some "x") 0 0 (by decide) (by decide)⟩

/-- C10 evaluation at the failing input: the WHERE filters of
get_upcoming_entries are vacuous.  First conjunct: every row of every
table is returned regardless of its timestamp, because each TEXT-stored
timestamp compares greater than the REAL parameter under SQLite's
cross-class ordering.  Second conjunct: the stale task "ts"
(max_completion_time 50, current time 100, absent upstream) IS therefore
presented to the reconciliation, and the run deletes its calendar event
"eS" and its cache row — exactly what the claim says can never happen. -/
theorem c10_vacuous_filter_returns_stale_rows :
    (∀ (tasks : List TaskRec) (targets : List TargetRec) (patches : List PatchRec) (now : Int),
      get_upcoming_entries tasks targets patches now = (tasks, targets, patches)) ∧
    ((⟨"ts", "Stale", "ds", "CS", 10, 40, 50, 30, "USD", some "eS"⟩ : TaskRec).max_completion_time
        ≤ 100 ∧
     (get_upcoming_entries
        [⟨"ts", "Stale", "ds", "CS", 10, 40, 50, 30, "USD", some "eS"⟩] [] [] 100).1 =
       [⟨"ts", "Stale", "ds", "CS", 10, 40, 50, 30, "USD", some "eS"⟩] ∧
     compare_and_update
        (get_upcoming_entries
          [⟨"ts", "Stale", "ds", "CS", 10, 40, 50, 30, "USD", some "eS"⟩] [] [] 100).1
        ([] : List TaskRec) [] (fun _ => none) 100 =
       ([SyncOp.projDelete "eS", SyncOp.storeDelete "ts"], true)) := by
  constructor
  · intro tasks targets patches now
    have h : ∀ x : Int, sqlGt (storedTimestamp x) (SqlValue.real now) = true := fun _ => rfl
    simp [get_upcoming_entries, h]
  · refine ⟨by decide, by decide, by decide⟩
